import Mathlib

/-!
Shallow embedding of the update-check and shutdown core of
minecraft-server-hibernation (files lib/progmgr/progmgr.go and
lib/input/input.go), together with theorems settling the claims about it.

Strings are modelled as lists of characters (a Go string's runes; all the
literals involved are ASCII, so bytes and runes coincide).  Go ints are
modelled as unbounded Int; the places where 64-bit overflow or float
imprecision of math.Pow could make the Go computation differ from the
idealisation are flagged at the definitions concerned, and the theorems
whose truth depends on magnitudes carry explicit bounds keeping the real
computation inside the exact regime.
-/

set_option autoImplicit false

namespace Msh

/-- goReplaceAllAux p ps rep fuel s is Go strings.ReplaceAll(s, p::ps, rep)
for a non-empty pattern p::ps: scan left to right, replacing successive
non-overlapping occurrences of the pattern by rep.  The fuel argument only
bounds the recursion so that the definition is structural (and hence
computable by the kernel); every step consumes at least one character of s,
so fuel = s.length always suffices and the branch for exhausted fuel is
unreachable from goReplaceAll. -/
def goReplaceAllAux (p : Char) (ps rep : List Char) : Nat → List Char → List Char
  | 0, s => s
  | _ + 1, [] => []
  | fuel + 1, c :: rest =>
    if List.isPrefixOf (p :: ps) (c :: rest) then
      rep ++ goReplaceAllAux p ps rep fuel (List.drop ps.length rest)
    else
      c :: goReplaceAllAux p ps rep fuel rest

/-- goReplaceAll s pat rep models Go strings.ReplaceAll(s, pat, rep).  The
empty-pattern case (in which Go inserts rep at every rune boundary) never
arises in this program; it is mapped to the identity. -/
def goReplaceAll (s pat rep : List Char) : List Char :=
  match pat with
  | [] => s
  | p :: ps => goReplaceAllAux p ps rep s.length s

/-- containsSub s sub models Go strings.Contains(s, sub). -/
def containsSub (s sub : List Char) : Bool :=
  match sub, s with
  | [], _ => true
  | _ :: _, [] => false
  | p :: ps, c :: rest => List.isPrefixOf (p :: ps) (c :: rest) || containsSub rest (p :: ps)

/-- splitOnChar sep s models Go strings.Split(s, sep) for a one-character
separator: Split("", sep) = [""], and every occurrence of sep opens a new
(possibly empty) field. -/
def splitOnChar (sep : Char) : List Char → List (List Char)
  | [] => [[]]
  | c :: rest =>
    if c = sep then [] :: splitOnChar sep rest
    else
      match splitOnChar sep rest with
      | [] => [[c]]
      | g :: gs => (c :: g) :: gs

/-- natOfDigits accumulates decimal digits left to right, as Go
strconv.Atoi does. -/
def natOfDigits (ds : List Char) : Nat :=
  ds.foldl (fun a c => a * 10 + (c.toNat - Char.toNat '0')) 0

/-- atoi? models Go strconv.Atoi: an optional sign followed by one or more
ASCII decimal digits, rejected (errors, here: none) when empty, when a
non-digit occurs, or when the value leaves the 64-bit int range. -/
def atoi? (s : List Char) : Option Int :=
  let (sign, digits) :=
    match s with
    | '+' :: rest => ((1 : Int), rest)
    | '-' :: rest => ((-1 : Int), rest)
    | _ => ((1 : Int), s)
  if digits.isEmpty then none
  else if digits.all Char.isDigit then
    let v : Int := sign * (natOfDigits digits : Int)
    if -(2 ^ 63) ≤ v ∧ v ≤ 2 ^ 63 - 1 then some v else none
  else none

/-- versionParts s is the list of dot-separated fields of s after removing
every occurrence of the character v, exactly as in digitize:
strings.Split(strings.ReplaceAll(Version, "v", ""), "."). -/
def versionParts (s : List Char) : List (List Char) :=
  splitOnChar '.' (goReplaceAll s ['v'] [])

/-- digitizeLoop k parts n acc is the accumulation loop of digitize:
for the field at (0-indexed) position n out of k, add
field-value * 1000 ^ (k - n), failing if the field does not parse.
The Go code computes the place value as int(math.Pow(1000, float64(k-n)))
on a 64-bit int; the exact power used here coincides with that whenever
k - n is at most 6 (beyond that the float64 conversion overflows int64),
which all magnitude-sensitive theorems below guarantee by hypothesis. -/
def digitizeLoop (k : Nat) : List (List Char) → Nat → Int → Option Int
  | [], _, acc => some acc
  | d :: rest, n, acc =>
    match atoi? d with
    | none => none
    | some digitInt => digitizeLoop k rest (n + 1) (acc + digitInt * 1000 ^ (k - n))

/-- digitize models the inner function digitize of deltaVersion: split the
v-stripped string on dots and accumulate the fields with descending powers
of 1000. -/
def digitize (s : List Char) : Option Int :=
  digitizeLoop (versionParts s).length (versionParts s) 0 0

/-- deltaVersion models deltaVersion: digitize both versions (client first,
as the code does) and return onlineVersionInt - clientVersionInt; a parse
error in either digitization is propagated (none). -/
def deltaVersion (onlineVersion clientVersion : String) : Option Int :=
  match digitize clientVersion.data with
  | none => none
  | some clientVersionInt =>
    match digitize onlineVersion.data with
    | none => none
    | some onlineVersionInt => some (onlineVersionInt - clientVersionInt)

/-- ERROR is the checkUpdate status constant 0xffffffff. -/
def ERROR : Int := 0xffffffff

/-- UPDATED is the checkUpdate status constant 0x00000000. -/
def UPDATED : Int := 0x00000000

/-- UPDATEAVAILABLE is the checkUpdate status constant 0x00000001. -/
def UPDATEAVAILABLE : Int := 0x00000001

/-- UNOFFICIALVERSION is the checkUpdate status constant 0x00000002. -/
def UNOFFICIALVERSION : Int := 0x00000002

/-- CheckResult is the triple returned by checkUpdate: the status code, the
online version string, and whether the returned error is non-nil. -/
structure CheckResult where
  status : Int
  onlineVersion : String
  isErr : Bool
deriving DecidableEq, Repr

/-- strReplaceAll lifts goReplaceAll to String. -/
def strReplaceAll (s pat rep : String) : String :=
  ⟨goReplaceAll s.data pat.data rep.data⟩

/-- respHeader is the expected response header "latest version: " that
UpdateManager passes to checkUpdate. -/
def respHeader : String := "latest version: "

/-- checkUpdate models the response-processing part of checkUpdate.  The
request building, HTTP round trip and body read are external I/O; any error
from them is summarised by the transportErr flag (the code returns the
ERROR triple on each of those errors before inspecting the body).  After
that the code mirrors the source exactly: if the body does not CONTAIN the
header (strings.Contains) return the ERROR triple; otherwise remove ALL
occurrences of the header (strings.ReplaceAll) to obtain the online
version, compare with deltaVersion (the ERROR triple again on parse error),
and classify by the sign of the delta. -/
def checkUpdate (transportErr : Bool) (respBody clientVersion hdr : String) : CheckResult :=
  if transportErr then ⟨ERROR, "error", true⟩
  else if !(containsSub respBody.data hdr.data) then ⟨ERROR, "error", true⟩
  else
    let onlineVersion := strReplaceAll respBody hdr ""
    match deltaVersion onlineVersion clientVersion with
    | none => ⟨ERROR, "error", true⟩
    | some delta =>
      if 0 < delta then ⟨UPDATEAVAILABLE, onlineVersion, false⟩
      else if delta < 0 then ⟨UNOFFICIALVERSION, onlineVersion, false⟩
      else ⟨UPDATED, onlineVersion, false⟩

/-- parseAll parts parses every dot-separated field with atoi?, returning
the list of component values, or none as soon as one field fails — the
same error propagation as the loop in digitize. -/
def parseAll : List (List Char) → Option (List Int)
  | [] => some []
  | d :: rest =>
    match atoi? d, parseAll rest with
    | some v, some vs => some (v :: vs)
    | _, _ => none

/-- placeSum k n vals is the sum of component-value times place-value that
the digitize loop accumulates from (0-indexed) position n on: the component
at position n contributes vals-head * 1000 ^ (k - n). -/
def placeSum (k : Nat) : Nat → List Int → Int
  | _, [] => 0
  | n, v :: vs => v * 1000 ^ (k - n) + placeSum k (n + 1) vs

/-- base1000 vals is the plain base-1000 value of a component list: the
last component has place value 1.  digitize produces 1000 times this
value (see placeSum_eq_base1000). -/
def base1000 : List Int → Int
  | [] => 0
  | v :: vs => v * 1000 ^ vs.length + base1000 vs

/-- lexLt vals1 vals2 decides strict component-wise lexicographic order on
component lists (a strict prefix is smaller). -/
def lexLt : List Int → List Int → Bool
  | [], [] => false
  | [], _ :: _ => true
  | _ :: _, [] => false
  | x :: xs, y :: ys => if x < y then true else if y < x then false else lexLt xs ys

/-- ServStatus abstracts the external servctrl.Stats.Status value read by
InterruptListener.  Modelled from the spec: the constants STATUS_STOPPING
and STATUS_OFFLINE live in the external servctrl package (not under src);
the switch in InterruptListener only distinguishes those two values from
everything else, so the type has one constructor for each named status and
one constructor standing for any other value. -/
inductive ServStatus where
  | stopping
  | offline
  | other
deriving DecidableEq

/-- ShutdownTrace records the externally observable actions of one pass of
InterruptListener after a termination signal: whether the stop operation
was invoked, whether servctrl.ServTerm.Wg.Wait (the wait-for-completion
primitive) was invoked, whether the unexpected-status warning was logged,
and the argument passed to os.Exit. -/
structure ShutdownTrace where
  stopInvoked : Bool
  waitInvoked : Bool
  warnLogged : Bool
  exitCode : Nat
deriving DecidableEq

/-- interruptListenerOnSignal models the body of InterruptListener's loop
for one received signal, as a function of the status observed after the
stop call and the 1-second grace sleep: STATUS_STOPPING waits on the
terminal wait group, STATUS_OFFLINE proceeds directly, and the default
case logs a warning and proceeds; every branch then calls os.Exit(0). -/
def interruptListenerOnSignal (status : ServStatus) : ShutdownTrace :=
  match status with
  | .stopping => ⟨true, true, false, 0⟩
  | .offline => ⟨true, false, false, 0⟩
  | .other => ⟨true, false, true, 0⟩

/-- notifyGameChat models the loop of notifyGameChat under a discrete-time
idealisation: now is the time elapsed since the start (so the deadline
endT = start + deltaToEnd becomes now < deltaToEnd), the loop body is
instantaneous, and time.Sleep advances the clock by exactly
deltaNotification.  Each iteration is recorded as a pair of its tick time
and whether servctrl.ServTerm.IsActive reported the terminal active at
that tick (true means Execute("say ...") was attempted, false means the
tick was skipped silently).  The fuel argument only bounds the recursion
so the definition is structural: every iteration advances the clock by
deltaNotification, so any fuel of at least deltaToEnd iterations is enough
whenever deltaNotification is at least one time unit. -/
def notifyGameChat (isActive : Nat → Bool) : Nat → Nat → Nat → Nat → List (Nat × Bool)
  | 0, _, _, _ => []
  | fuel + 1, now, deltaNotification, deltaToEnd =>
    if now < deltaToEnd then
      (now, isActive now) ::
        notifyGameChat isActive fuel (now + deltaNotification) deltaNotification deltaToEnd
    else []

/-- CycleTrace records the externally observable outcome of one iteration
of the UpdateManager loop: the checkUpdate result it obtained, the console
line it printed (none if nothing was printed), and whether a
notifyGameChat broadcaster goroutine was spawned. -/
structure CycleTrace where
  result : CheckResult
  printedLine : Option String
  broadcastSpawned : Bool
deriving DecidableEq

/-- updateManagerCycle models one iteration of the UpdateManager loop
(without the trailing 4-hour sleep, and with the non-blocking send on
CheckedUpdateC omitted since it carries no data): call checkUpdate with
the fixed response header, and only when config NotifyUpdate is set,
switch on the status: UPDATED, UPDATEAVAILABLE and UNOFFICIALVERSION each
print their line, UPDATEAVAILABLE additionally spawns the broadcaster, and
any other status (in particular ERROR) matches no case and produces no
output. -/
def updateManagerCycle (notifyUpdate transportErr : Bool) (respBody clientVersion : String) :
    CycleTrace :=
  let r := checkUpdate transportErr respBody clientVersion respHeader
  if notifyUpdate then
    if r.status = UPDATED then
      ⟨r, some ("*** msh (" ++ clientVersion ++ ") is updated ***"), false⟩
    else if r.status = UPDATEAVAILABLE then
      ⟨r, some ("*** msh (" ++ r.onlineVersion ++ ") is now available: visit github to update! ***"),
        true⟩
    else if r.status = UNOFFICIALVERSION then
      ⟨r, some ("*** msh (" ++ clientVersion ++ ") is running an unofficial release ***"), false⟩
    else ⟨r, none, false⟩
  else ⟨r, none, false⟩

/-- collapseSpaces models the loop
for strings.Contains(line, "  ") { line = strings.ReplaceAll(line, "  ", " ") }
of GetInput.  The fuel argument only bounds the recursion so the
definition is structural: every replacement pass on a string still
containing a double space strictly shortens it, so fuel = s.length always
suffices (and getInputLine invokes it that way). -/
def collapseSpaces : Nat → List Char → List Char
  | 0, s => s
  | fuel + 1, s =>
    if containsSub s [' ', ' '] then
      collapseSpaces fuel (goReplaceAll s [' ', ' '] [' '])
    else s

/-- joinSpace models strings.Join(words, " "). -/
def joinSpace : List (List Char) → List Char
  | [] => []
  | [w] => w
  | w :: rest => w ++ ' ' :: joinSpace rest

/-- InputTrace records the externally observable actions of GetInput on
one input line: whether servctrl.StartMS was invoked, whether
servctrl.StopMS(false) was invoked, the command string passed to
servctrl.Execute (none if no command was forwarded), and the argument of
os.Exit if the process was exited. -/
structure InputTrace where
  startInvoked : Bool
  stopInvoked : Bool
  execSent : Option String
  exitCode : Option Nat
deriving DecidableEq

/-- getInputLine models the body of GetInput's read loop for one line read
from stdin (newline included, as bufio ReadString returns it), given
whether servstats reports the minecraft server online: normalise the line
(drop newlines and carriage returns, turn tabs into spaces, collapse
repeated spaces), split on spaces, and dispatch on the first word ("msh"
with start / freeze / exit, "mine" forwarding the rest to the server
terminal when online); only "msh exit" reaches os.Exit, with argument 0. -/
def getInputLine (serverOnline : Bool) (line : String) : InputTrace :=
  let l1 := goReplaceAll line.data ['\n'] []
  let l2 := goReplaceAll l1 ['\r'] []
  let l3 := goReplaceAll l2 ['\t'] [' ']
  let l4 := collapseSpaces l3.length l3
  let lineSplit := splitOnChar ' ' l4
  let w0 := lineSplit.headD []
  if w0 = "msh".data then
    if lineSplit.length < 2 then ⟨false, false, none, none⟩
    else
      let w1 := (lineSplit.drop 1).headD []
      if w1 = "start".data then ⟨true, false, none, none⟩
      else if w1 = "freeze".data then ⟨false, true, none, none⟩
      else if w1 = "exit".data then ⟨false, true, none, some 0⟩
      else ⟨false, false, none, none⟩
  else if w0 = "mine".data then
    if lineSplit.length < 2 then ⟨false, false, none, none⟩
    else if serverOnline then ⟨false, false, some ⟨joinSpace (lineSplit.drop 1)⟩, none⟩
    else ⟨false, false, none, none⟩
  else ⟨false, false, none, none⟩

namespace Lemmas

theorem digitizeLoop_eq (k : Nat) (parts : List (List Char)) :
    ∀ (n : Nat) (acc : Int),
      digitizeLoop k parts n acc =
        (parseAll parts).map (fun vals => acc + placeSum k n vals) := by
  induction parts with
  | nil => intro n acc; simp [digitizeLoop, parseAll, placeSum]
  | cons d rest ih =>
    intro n acc
    cases h : atoi? d with
    | none => simp [digitizeLoop, parseAll, h]
    | some v =>
      cases hr : parseAll rest with
      | none => simp [digitizeLoop, parseAll, h, hr, ih]
      | some vs =>
        simp only [digitizeLoop, parseAll, h, hr, ih, Option.map_some', placeSum]
        ring_nf

theorem digitize_eq_parseAll (s : List Char) :
    digitize s =
      (parseAll (versionParts s)).map
        (fun vals => placeSum (versionParts s).length 0 vals) := by
  unfold digitize
  rw [digitizeLoop_eq]
  simp

theorem parseAll_length {parts : List (List Char)} {vals : List Int}
    (h : parseAll parts = some vals) : vals.length = parts.length := by
  induction parts generalizing vals with
  | nil => simp [parseAll] at h; simp [← h]
  | cons d rest ih =>
    cases hd : atoi? d with
    | none => simp [parseAll, hd] at h
    | some v =>
      cases hr : parseAll rest with
      | none => simp [parseAll, hd, hr] at h
      | some vs =>
        simp only [parseAll, hd, hr, Option.some.injEq] at h
        subst h
        simp [ih hr]

theorem parseAll_eq_none {parts : List (List Char)} :
    parseAll parts = none ↔ ∃ c ∈ parts, atoi? c = none := by
  induction parts with
  | nil => simp [parseAll]
  | cons d rest ih =>
    cases hd : atoi? d with
    | none => simp [parseAll, hd]
    | some v =>
      cases hr : parseAll rest with
      | none =>
        simp only [parseAll, hd, hr, List.mem_cons]
        constructor
        · intro _
          obtain ⟨c, hc, hn⟩ := ih.mp hr
          exact ⟨c, Or.inr hc, hn⟩
        · intro _; trivial
      | some vs =>
        simp only [parseAll, hd, hr, List.mem_cons]
        constructor
        · intro h; exact absurd h (by simp)
        · rintro ⟨c, hc | hc, hnone⟩
          · subst hc; simp [hd] at hnone
          · have hx := ih.mpr ⟨c, hc, hnone⟩
            rw [hr] at hx
            exact absurd hx (by simp)

theorem digitize_eq_none_iff (s : List Char) :
    digitize s = none ↔ ∃ c ∈ versionParts s, atoi? c = none := by
  rw [digitize_eq_parseAll, Option.map_eq_none', parseAll_eq_none]

theorem digitize_of_parseAll {s : List Char} {vals : List Int}
    (h : parseAll (versionParts s) = some vals) :
    digitize s = some (placeSum vals.length 0 vals) := by
  rw [digitize_eq_parseAll, h, Option.map_some', parseAll_length h]

theorem placeSum_eq_base1000 (vals : List Int) :
    ∀ k n, n + vals.length = k → placeSum k n vals = 1000 * base1000 vals := by
  induction vals with
  | nil => intro k n _; simp [placeSum, base1000]
  | cons v vs ih =>
    intro k n hk
    have hkn : k - n = vs.length + 1 := by
      simp only [List.length_cons] at hk
      omega
    have htail : (n + 1) + vs.length = k := by
      simp only [List.length_cons] at hk
      omega
    simp only [placeSum, base1000, hkn, ih _ _ htail]
    ring

theorem base1000_nonneg {vals : List Int} (h : ∀ v ∈ vals, 0 ≤ v) :
    0 ≤ base1000 vals := by
  induction vals with
  | nil => simp [base1000]
  | cons v vs ih =>
    simp only [base1000]
    have h1 : 0 ≤ v := h v (by simp)
    have h2 : 0 ≤ base1000 vs := ih (fun w hw => h w (by simp [hw]))
    positivity

theorem base1000_lt {vals : List Int} (h : ∀ v ∈ vals, 0 ≤ v ∧ v < 1000) :
    base1000 vals < 1000 ^ vals.length := by
  induction vals with
  | nil => simp [base1000]
  | cons v vs ih =>
    simp only [base1000, List.length_cons]
    have h1 : v < 1000 := (h v (by simp)).2
    have h2 : base1000 vs < 1000 ^ vs.length := ih (fun w hw => h w (by simp [hw]))
    have hp : (0 : Int) < 1000 ^ vs.length := by positivity
    calc v * 1000 ^ vs.length + base1000 vs
        < v * 1000 ^ vs.length + 1000 ^ vs.length := by linarith
      _ = (v + 1) * 1000 ^ vs.length := by ring
      _ ≤ 1000 * 1000 ^ vs.length := by
          apply mul_le_mul_of_nonneg_right (by omega) (le_of_lt hp)
      _ = 1000 ^ (vs.length + 1) := by ring

theorem base1000_lex_mono {vals1 vals2 : List Int}
    (hlen : vals1.length = vals2.length)
    (hb1 : ∀ v ∈ vals1, 0 ≤ v ∧ v < 1000)
    (hb2 : ∀ v ∈ vals2, 0 ≤ v ∧ v < 1000)
    (hlex : lexLt vals1 vals2 = true) :
    base1000 vals1 < base1000 vals2 := by
  induction vals1 generalizing vals2 with
  | nil =>
    cases vals2 with
    | nil => simp [lexLt] at hlex
    | cons y ys => simp at hlen
  | cons x xs ih =>
    cases vals2 with
    | nil => simp at hlen
    | cons y ys =>
      have hL : xs.length = ys.length := by simpa using hlen
      simp only [lexLt] at hlex
      by_cases hxy : x < y
      · have h1 : base1000 xs < 1000 ^ xs.length :=
          base1000_lt (fun w hw => hb1 w (by simp [hw]))
        have h2 : 0 ≤ base1000 ys :=
          base1000_nonneg (fun w hw => (hb2 w (by simp [hw])).1)
        have hp : (0 : Int) < 1000 ^ xs.length := by positivity
        simp only [base1000, ← hL]
        calc x * 1000 ^ xs.length + base1000 xs
            < x * 1000 ^ xs.length + 1000 ^ xs.length := by linarith
          _ = (x + 1) * 1000 ^ xs.length := by ring
          _ ≤ y * 1000 ^ xs.length := by
              apply mul_le_mul_of_nonneg_right (by omega) (le_of_lt hp)
          _ ≤ y * 1000 ^ xs.length + base1000 ys := by linarith
      · rw [if_neg hxy] at hlex
        by_cases hyx : y < x
        · rw [if_pos hyx] at hlex; simp at hlex
        · rw [if_neg hyx] at hlex
          have hxeq : x = y := le_antisymm (not_lt.mp hyx) (not_lt.mp hxy)
          have htail : base1000 xs < base1000 ys :=
            ih hL (fun w hw => hb1 w (by simp [hw]))
              (fun w hw => hb2 w (by simp [hw])) hlex
          simp only [base1000, hxeq, ← hL]
          linarith

theorem goReplaceAllAux_v_filter :
    ∀ (fuel : Nat) (s : List Char), s.length ≤ fuel →
      goReplaceAllAux 'v' [] [] fuel s = s.filter (fun c => c != 'v') := by
  intro fuel
  induction fuel with
  | zero =>
    intro s hs
    cases s with
    | nil => rfl
    | cons c rest => simp at hs
  | succ f ih =>
    intro s hs
    cases s with
    | nil => rfl
    | cons c rest =>
      by_cases hc : c = 'v'
      · subst hc
        simp only [goReplaceAllAux, List.isPrefixOf, List.nil_append,
          BEq.refl, Bool.and_self, if_true, List.drop_zero, List.filter_cons]
        have hr : rest.length ≤ f := by simpa using hs
        simp [ih rest hr]
      · have hb : (('v' == c) && true) = false := by
          simp [beq_iff_eq]
          intro h
          exact absurd h.symm hc
        simp only [goReplaceAllAux, List.isPrefixOf, hb, if_false, List.filter_cons]
        have hr : rest.length ≤ f := by simpa using hs
        have hne : (c != 'v') = true := by simp [bne_iff_ne]; exact hc
        simp [ih rest hr, hne]

theorem goReplaceAll_v_filter (s : List Char) :
    goReplaceAll s ['v'] [] = s.filter (fun c => c != 'v') :=
  goReplaceAllAux_v_filter s.length s (le_refl _)

theorem versionParts_filter_v (s : List Char) :
    versionParts (s.filter (fun c => c != 'v')) = versionParts s := by
  unfold versionParts
  rw [goReplaceAll_v_filter, goReplaceAll_v_filter, List.filter_filter]
  simp

theorem digitize_filter_v (s : List Char) :
    digitize s = digitize (s.filter (fun c => c != 'v')) := by
  unfold digitize
  rw [versionParts_filter_v]

theorem deltaVersion_eq_none_iff (onlineVersion clientVersion : String) :
    deltaVersion onlineVersion clientVersion = none ↔
      digitize clientVersion.data = none ∨ digitize onlineVersion.data = none := by
  unfold deltaVersion
  cases hc : digitize clientVersion.data with
  | none => simp
  | some c =>
    cases ho : digitize onlineVersion.data with
    | none => simp
    | some o => simp

theorem checkUpdate_classify (respBody clientVersion : String) (d : Int)
    (hc : containsSub respBody.data respHeader.data = true)
    (hd : deltaVersion (strReplaceAll respBody respHeader "") clientVersion = some d) :
    checkUpdate false respBody clientVersion respHeader =
      if 0 < d then ⟨UPDATEAVAILABLE, strReplaceAll respBody respHeader "", false⟩
      else if d < 0 then ⟨UNOFFICIALVERSION, strReplaceAll respBody respHeader "", false⟩
      else ⟨UPDATED, strReplaceAll respBody respHeader "", false⟩ := by
  simp only [checkUpdate, hc, hd, Bool.not_true, Bool.false_eq_true, if_false]

theorem checkUpdate_no_contains (respBody clientVersion : String)
    (hc : containsSub respBody.data respHeader.data = false) :
    checkUpdate false respBody clientVersion respHeader = ⟨ERROR, "error", true⟩ := by
  simp only [checkUpdate, hc, Bool.not_false, Bool.false_eq_true, if_false, if_true]

theorem checkUpdate_parse_error (respBody clientVersion : String)
    (hd : deltaVersion (strReplaceAll respBody respHeader "") clientVersion = none) :
    checkUpdate false respBody clientVersion respHeader = ⟨ERROR, "error", true⟩ := by
  cases hc : containsSub respBody.data respHeader.data with
  | false => exact checkUpdate_no_contains respBody clientVersion hc
  | true => simp only [checkUpdate, hc, hd, Bool.not_true, Bool.false_eq_true, if_false]

end Lemmas

/-- C1, counterexample: the claim says checkUpdate returns the ERROR triple
whenever the response body does not BEGIN with the header "latest version: ".
On the body "9latest version: " — which contains the header but does not
begin with it — the code proceeds (strings.Contains, not a prefix test),
removes the header, digitizes "9", and returns UNOFFICIALVERSION with
online version "9" and a nil error, contradicting the claim. -/
theorem checkUpdate_begins_with_counterexample :
    List.isPrefixOf respHeader.data "9latest version: ".data = false ∧
    checkUpdate false "9latest version: " "v1.0.0" respHeader =
      ⟨UNOFFICIALVERSION, "9", false⟩ ∧
    UNOFFICIALVERSION ≠ ERROR ∧ ("9" : String) ≠ "error" := by
  decide

/-- C1, amended: on a transport failure, or if the response body does not
CONTAIN the header "latest version: " anywhere, or if the subsequent
version comparison fails to parse, checkUpdate returns the ERROR status
with online version the literal "error" and a non-nil error; otherwise the
online version is obtained by removing EVERY occurrence of the header from
the body, and the error is nil. -/
theorem checkUpdate_error_paths_amended :
    (∀ respBody clientVersion : String,
      checkUpdate true respBody clientVersion respHeader = ⟨ERROR, "error", true⟩) ∧
    (∀ respBody clientVersion : String,
      containsSub respBody.data respHeader.data = false →
      checkUpdate false respBody clientVersion respHeader = ⟨ERROR, "error", true⟩) ∧
    (∀ respBody clientVersion : String,
      deltaVersion (strReplaceAll respBody respHeader "") clientVersion = none →
      checkUpdate false respBody clientVersion respHeader = ⟨ERROR, "error", true⟩) ∧
    (∀ (respBody clientVersion : String) (d : Int),
      containsSub respBody.data respHeader.data = true →
      deltaVersion (strReplaceAll respBody respHeader "") clientVersion = some d →
      (checkUpdate false respBody clientVersion respHeader).onlineVersion =
        strReplaceAll respBody respHeader "" ∧
      (checkUpdate false respBody clientVersion respHeader).isErr = false) := by
  refine ⟨fun _ _ => rfl, fun b c hc => Lemmas.checkUpdate_no_contains b c hc,
    fun b c hd => Lemmas.checkUpdate_parse_error b c hd, fun b c d hc hd => ?_⟩
  rw [Lemmas.checkUpdate_classify b c d hc hd]
  split_ifs <;> exact ⟨rfl, rfl⟩

/-- C1, witness for the amended theorem at concrete inputs: a body without
the header yields the ERROR triple, and a well-formed body yields the
header-stripped online version with a nil error. -/
theorem checkUpdate_error_paths_amended_witness :
    checkUpdate false "no header here" "v1.0.0" respHeader = ⟨ERROR, "error", true⟩ ∧
    (checkUpdate false "latest version: v2.0.0" "v1.0.0" respHeader).onlineVersion = "v2.0.0" ∧
    (checkUpdate false "latest version: v2.0.0" "v1.0.0" respHeader).isErr = false := by
  refine ⟨checkUpdate_error_paths_amended.2.1 "no header here" "v1.0.0" (by decide), ?_, ?_⟩
  · exact (checkUpdate_error_paths_amended.2.2.2 "latest version: v2.0.0" "v1.0.0"
      1000000000 (by decide) (by decide)).1.trans (by decide)
  · exact (checkUpdate_error_paths_amended.2.2.2 "latest version: v2.0.0" "v1.0.0"
      1000000000 (by decide) (by decide)).2

/-- C2, counterexample: the claim's place values (1-indexed position n gets
1000 ^ (k - n), so the last component place value 1) would make
digitize("v1.2.3") equal 1002003; the code's loop uses the exponent
k - n with n 0-indexed, giving the last component place value 1000 and
digitize("v1.2.3") = 1002003000. -/
theorem digitize_place_value_counterexample :
    digitize "v1.2.3".data = some 1002003000 ∧
    digitize "v1.2.3".data ≠ some (1 * 1000 ^ 2 + 2 * 1000 ^ 1 + 3 * 1000 ^ 0) := by
  decide

/-- C2, amended: for every version string all of whose dot-separated
components parse, the component at 0-indexed position n out of k receives
place value 1000 ^ (k - n) — equivalently, 1-indexed position n receives
1000 ^ (k - n + 1), so the LAST component has place value 1000 — and the
encoded integer is the sum of component-value times place-value
(placeSum k 0 vals is exactly that sum).  Concretely
digitize("v1.2.3") = 1 * 1000^3 + 2 * 1000^2 + 3 * 1000^1. -/
theorem digitize_place_values_amended :
    (∀ (s : List Char) (vals : List Int),
      parseAll (versionParts s) = some vals →
      digitize s = some (placeSum vals.length 0 vals)) ∧
    digitize "v1.2.3".data = some (1 * 1000 ^ 3 + 2 * 1000 ^ 2 + 3 * 1000 ^ 1) := by
  exact ⟨fun s vals h => Lemmas.digitize_of_parseAll h, by decide⟩

/-- C2, witness for the amended theorem at the concrete version "v1.2.3"
with components [1, 2, 3]. -/
theorem digitize_place_values_amended_witness :
    parseAll (versionParts "v1.2.3".data) = some [1, 2, 3] ∧
    digitize "v1.2.3".data = some (placeSum 3 0 [1, 2, 3]) :=
  ⟨by decide, digitize_place_values_amended.1 "v1.2.3".data [1, 2, 3] (by decide)⟩

/-- C3, counterexample: across versions with DIFFERING component counts
the encoding is not monotonic in lexicographic order: [0, 9] is
lexicographically below [1], yet digitize("v0.9") = 9000 exceeds
digitize("v1") = 1000, so deltaVersion("v1", "v0.9") is negative. -/
theorem encoding_cross_length_counterexample :
    digitize "v0.9".data = some 9000 ∧
    digitize "v1".data = some 1000 ∧
    deltaVersion "v1" "v0.9" = some (-8000) ∧
    ¬ ((9000 : Int) < 1000) := by
  decide

/-- C3, amended: for version strings with EQUAL component counts (at most
5 components, which keeps the Go int64 computation exact), all components
in [0, 1000), the encoding is strictly monotonic in component-wise
lexicographic order: the comparator's delta of the lexicographically
larger over the smaller is positive.  The claim's concrete consequences
hold: deltaVersion("v1.0.0","v1.0.0") = 0, deltaVersion("v2.0.0","v1.0.0")
is positive and deltaVersion("v1.0.0","v2.0.0") is negative. -/
theorem encoding_monotone_equal_length_amended :
    (∀ (s1 s2 : String) (vals1 vals2 : List Int),
      parseAll (versionParts s1.data) = some vals1 →
      parseAll (versionParts s2.data) = some vals2 →
      vals1.length = vals2.length →
      vals1.length ≤ 5 →
      (∀ v ∈ vals1, 0 ≤ v ∧ v < 1000) →
      (∀ v ∈ vals2, 0 ≤ v ∧ v < 1000) →
      lexLt vals1 vals2 = true →
      ∃ d : Int, deltaVersion s2 s1 = some d ∧ 0 < d) ∧
    deltaVersion "v1.0.0" "v1.0.0" = some 0 ∧
    deltaVersion "v2.0.0" "v1.0.0" = some 1000000000 ∧
    deltaVersion "v1.0.0" "v2.0.0" = some (-1000000000) := by
  refine ⟨?_, by decide, by decide, by decide⟩
  intro s1 s2 vals1 vals2 h1 h2 hlen _ hb1 hb2 hlex
  have e1 := Lemmas.digitize_of_parseAll h1
  have e2 := Lemmas.digitize_of_parseAll h2
  have p1 : placeSum vals1.length 0 vals1 = 1000 * base1000 vals1 :=
    Lemmas.placeSum_eq_base1000 vals1 vals1.length 0 (by omega)
  have p2 : placeSum vals2.length 0 vals2 = 1000 * base1000 vals2 :=
    Lemmas.placeSum_eq_base1000 vals2 vals2.length 0 (by omega)
  have hm := Lemmas.base1000_lex_mono hlen hb1 hb2 hlex
  refine ⟨1000 * base1000 vals2 - 1000 * base1000 vals1, ?_, by linarith⟩
  simp only [deltaVersion, e1, e2, p1, p2]

/-- C3, witness for the amended theorem at the concrete pair
"v1.2.3" below "v1.2.4". -/
theorem encoding_monotone_equal_length_amended_witness :
    ∃ d : Int, deltaVersion "v1.2.4" "v1.2.3" = some d ∧ 0 < d :=
  encoding_monotone_equal_length_amended.1 "v1.2.3" "v1.2.4" [1, 2, 3] [1, 2, 4]
    (by decide) (by decide) (by decide) (by decide) (by decide) (by decide) (by decide)

/-- C4, counterexample: the claim says deltaVersion errors exactly when
some component fails to parse as a NON-NEGATIVE integer.  The component
"-1" is not a non-negative integer, yet strconv.Atoi accepts it, so
deltaVersion("v1.-1", "v1.-1") succeeds with delta 0 instead of returning
a parse error. -/
theorem deltaVersion_negative_component_counterexample :
    atoi? "-1".data = some (-1) ∧
    deltaVersion "v1.-1" "v1.-1" = some 0 := by
  decide

/-- C4, amended: deltaVersion returns a parse error exactly when some
dot-separated component (after removing every occurrence of the character
v) of either input fails strconv.Atoi — that is, fails to parse as an
optionally SIGNED base-10 integer within the 64-bit range; it does error
on "v1.x.0" and "vA.B", and checkUpdate maps any such error to the ERROR
classification. -/
theorem deltaVersion_parse_error_iff_amended :
    (∀ onlineVersion clientVersion : String,
      deltaVersion onlineVersion clientVersion = none ↔
        ((∃ c ∈ versionParts clientVersion.data, atoi? c = none) ∨
         (∃ c ∈ versionParts onlineVersion.data, atoi? c = none))) ∧
    deltaVersion "v1.x.0" "v1.0.0" = none ∧
    deltaVersion "v1.0.0" "vA.B" = none ∧
    (∀ respBody clientVersion : String,
      deltaVersion (strReplaceAll respBody respHeader "") clientVersion = none →
      checkUpdate false respBody clientVersion respHeader = ⟨ERROR, "error", true⟩) := by
  refine ⟨?_, by decide, by decide, fun b c hd => Lemmas.checkUpdate_parse_error b c hd⟩
  intro ov cv
  rw [Lemmas.deltaVersion_eq_none_iff, Lemmas.digitize_eq_none_iff,
    Lemmas.digitize_eq_none_iff]

/-- C4, witness for the amended theorem: the unparsable body "vA.B" drives
checkUpdate to the ERROR triple, and the iff instantiates at it. -/
theorem deltaVersion_parse_error_iff_amended_witness :
    checkUpdate false "vA.B" "v1.0.0" respHeader = ⟨ERROR, "error", true⟩ ∧
    (deltaVersion "vA.B" "v1.0.0" = none ↔
      ((∃ c ∈ versionParts "v1.0.0".data, atoi? c = none) ∨
       (∃ c ∈ versionParts "vA.B".data, atoi? c = none))) :=
  ⟨deltaVersion_parse_error_iff_amended.2.2.2 "vA.B" "v1.0.0" (by decide),
    deltaVersion_parse_error_iff_amended.1 "vA.B" "v1.0.0"⟩

/-- C5: when the protocol succeeds — no transport error, the body passes
the header test, and the comparison parses with delta d — checkUpdate
classifies exactly by the sign of d (positive: UPDATEAVAILABLE, negative:
UNOFFICIALVERSION, zero: UPDATED), returning in each case the derived
online version string and a nil error. -/
theorem checkUpdate_delta_classification
    (respBody clientVersion : String) (d : Int)
    (hc : containsSub respBody.data respHeader.data = true)
    (hd : deltaVersion (strReplaceAll respBody respHeader "") clientVersion = some d) :
    (0 < d → checkUpdate false respBody clientVersion respHeader =
      ⟨UPDATEAVAILABLE, strReplaceAll respBody respHeader "", false⟩) ∧
    (d < 0 → checkUpdate false respBody clientVersion respHeader =
      ⟨UNOFFICIALVERSION, strReplaceAll respBody respHeader "", false⟩) ∧
    (d = 0 → checkUpdate false respBody clientVersion respHeader =
      ⟨UPDATED, strReplaceAll respBody respHeader "", false⟩) := by
  rw [Lemmas.checkUpdate_classify respBody clientVersion d hc hd]
  refine ⟨fun h => by rw [if_pos h], fun h => ?_, fun h => ?_⟩
  · rw [if_neg (by omega), if_pos h]
  · rw [if_neg (by omega), if_neg (by omega)]

/-- C5, witness at the concrete body "latest version: v2.0.0" against
local version "v1.0.0", where the delta is positive. -/
theorem checkUpdate_delta_classification_witness :
    checkUpdate false "latest version: v2.0.0" "v1.0.0" respHeader =
      ⟨UPDATEAVAILABLE, strReplaceAll "latest version: v2.0.0" respHeader "", false⟩ :=
  (checkUpdate_delta_classification "latest version: v2.0.0" "v1.0.0" 1000000000
    (by decide) (by decide)).1 (by decide)

/-- C6: after the stop operation and the grace interval, InterruptListener
does not invoke the wait-for-completion primitive when the status is
OFFLINE, invokes it when the status is STOPPING, and for any other status
logs the unexpected-status warning and proceeds without waiting; only the
default branch warns. -/
theorem interruptListener_status_dispatch :
    (interruptListenerOnSignal .offline).waitInvoked = false ∧
    (interruptListenerOnSignal .offline).warnLogged = false ∧
    (interruptListenerOnSignal .stopping).waitInvoked = true ∧
    (interruptListenerOnSignal .other).waitInvoked = false ∧
    (interruptListenerOnSignal .other).warnLogged = true := by
  decide

/-- C7: in the discrete-time model, a broadcaster with total duration 40
minutes and repeat interval 20 minutes performs exactly two iterations, at
times 0 and 20 past the start, each recording whether the channel was
active (an inactive tick is a silent skip); and from any time at or past
the 40-minute deadline the loop self-terminates at once, for every
activity pattern and any fuel, with no external cancellation input in the
model at all. -/
theorem notifyGameChat_two_attempts :
    (∀ isActive : Nat → Bool,
      notifyGameChat isActive 41 0 20 40 = [(0, isActive 0), (20, isActive 20)]) ∧
    (∀ (isActive : Nat → Bool) (fuel t : Nat), 40 ≤ t →
      notifyGameChat isActive fuel t 20 40 = []) := by
  refine ⟨fun _ => rfl, fun isActive fuel t ht => ?_⟩
  cases fuel with
  | zero => rfl
  | succ f =>
    simp only [notifyGameChat]
    rw [if_neg (by omega)]

/-- C7, witness: the always-active pattern sends at 0 and 20, and the loop
entered at the deadline does nothing. -/
theorem notifyGameChat_two_attempts_witness :
    notifyGameChat (fun _ => true) 41 0 20 40 = [(0, true), (20, true)] ∧
    notifyGameChat (fun _ => true) 5 40 20 40 = [] :=
  ⟨notifyGameChat_two_attempts.1 (fun _ => true),
    notifyGameChat_two_attempts.2 (fun _ => true) 5 40 (by decide)⟩

/-- C8: with the NotificationGate disabled, one UpdateManager cycle prints
nothing and spawns no broadcaster while the version check still executes
and yields the same result; and with the gate enabled, a cycle whose check
ended in the ERROR status also prints nothing and spawns nothing. -/
theorem updateManager_notification_gate_frame :
    (∀ (transportErr : Bool) (respBody clientVersion : String),
      updateManagerCycle false transportErr respBody clientVersion =
        ⟨checkUpdate transportErr respBody clientVersion respHeader, none, false⟩) ∧
    (∀ (transportErr : Bool) (respBody clientVersion : String),
      (checkUpdate transportErr respBody clientVersion respHeader).status = ERROR →
      (updateManagerCycle true transportErr respBody clientVersion).printedLine = none ∧
      (updateManagerCycle true transportErr respBody clientVersion).broadcastSpawned = false) := by
  refine ⟨fun _ _ _ => rfl, fun te b c h => ?_⟩
  have hcase : updateManagerCycle true te b c =
      ⟨checkUpdate te b c respHeader, none, false⟩ := by
    simp [updateManagerCycle, h, ERROR, UPDATED, UPDATEAVAILABLE, UNOFFICIALVERSION]
  rw [hcase]
  exact ⟨rfl, rfl⟩

/-- C8, witness: a transport failure yields the ERROR status, and the
gated cycle on it prints nothing and spawns nothing. -/
theorem updateManager_notification_gate_frame_witness :
    (updateManagerCycle true true "latest version: v2.0.0" "v1.0.0").printedLine = none ∧
    (updateManagerCycle true true "latest version: v2.0.0" "v1.0.0").broadcastSpawned = false :=
  updateManager_notification_gate_frame.2 true "latest version: v2.0.0" "v1.0.0" (by decide)

/-- C9: every process-exit path of this core uses exit status 0: the
signal-driven path exits with 0 for every observed child status, the
command-driven path exits with 0 on the line "msh exit", and no input line
can produce an exit with any other status. -/
theorem exit_paths_status_zero :
    (∀ status : ServStatus, (interruptListenerOnSignal status).exitCode = 0) ∧
    (getInputLine false "msh exit\n").exitCode = some 0 ∧
    (∀ (serverOnline : Bool) (line : String),
      (getInputLine serverOnline line).exitCode = none ∨
      (getInputLine serverOnline line).exitCode = some 0) := by
  refine ⟨fun status => ?_, by decide, fun serverOnline line => ?_⟩
  · cases status <;> rfl
  · simp only [getInputLine]
    split_ifs <;> simp

/-- C10: digitize removes every occurrence of the character v anywhere in
its input — the v-stripping is a filter over the whole string, so
digitize is invariant under pre-filtering the v characters away — and
consequently inputs that are not of the "v"-led Version format still
succeed: deltaVersion("1.0.0", "v1.0.0") = 0 with no error, and
"v1.2v3" digitizes successfully instead of producing a parse error. -/
theorem digitize_removes_all_v :
    (∀ s : List Char, goReplaceAll s ['v'] [] = s.filter (fun c => c != 'v')) ∧
    (∀ s : List Char, digitize s = digitize (s.filter (fun c => c != 'v'))) ∧
    deltaVersion "1.0.0" "v1.0.0" = some 0 ∧
    deltaVersion "v1.2v3" "v1.2v3" = some 0 := by
  exact ⟨Lemmas.goReplaceAll_v_filter, Lemmas.digitize_filter_v, by decide, by decide⟩

end Msh
